import Mathlib

/-!
Verification of the battleship core: a shallow embedding of
`src/battleship/ship.py` (Ship, ShipFactory) and
`src/battleship/player.py` (AutomaticPlayer), with theorems settling the
frozen claims about the specification.

Coordinates are Python ints, embedded as `Int`.  Python sets of cells are
embedded as `Finset Cell`.  The randomness consumed by the rejection-sampling
fleet generator and by the random-target branch of the automatic player is
made explicit: each function takes the list of values that Python's `random`
calls would return, one entry per loop iteration; an exhausted list (or a
runtime error such as unpacking `None`) is modelled as `none`.
-/

abbrev Cell := Int × Int

/-- Chebyshev distance between two cells (the spec's 8-neighbourhood metric). -/
def chebDist (a b : Cell) : Nat := max (a.1 - b.1).natAbs (a.2 - b.2).natAbs

/-- Embedding of the `Ship` object: the normalized endpoint coordinates set by
`Ship.__init__` together with the mutable `damaged_cells` set.  The derived
`self.cells` set is recomputed by `Ship.cells` below (it is a pure function of
the endpoints, which never change after construction). -/
structure Ship where
  x_start : Int
  y_start : Int
  x_end : Int
  y_end : Int
  damaged_cells : Finset Cell
deriving DecidableEq

/-- `Ship.is_vertical`: the start and end x coordinates are equal. -/
def Ship.is_vertical (s : Ship) : Bool := decide (s.x_start = s.x_end)

/-- `Ship.is_horizontal`: the start and end y coordinates are equal. -/
def Ship.is_horizontal (s : Ship) : Bool := decide (s.y_start = s.y_end)

/-- `Ship.get_cells`, stored as `self.cells` in `__init__`.  The Python
function returns `None` when the ship is neither horizontal nor vertical;
that branch is unreachable for constructed ships (the constructor raises
first) and is embedded as the empty set. -/
def Ship.cells (s : Ship) : Finset Cell :=
  if s.is_horizontal then (Finset.Icc s.x_start s.x_end).image (fun x => (x, s.y_start))
  else if s.is_vertical then (Finset.Icc s.y_start s.y_end).image (fun y => (s.x_start, y))
  else ∅

/-- `Ship.__init__`: normalize the endpoints with min/max on each axis and
raise `ValueError` (embedded as `none`) when the normalized ship is neither
horizontal nor vertical.  `damaged_cells` starts empty. -/
def mkShip (start stop : Cell) : Option Ship :=
  if ¬(min start.2 stop.2 = max start.2 stop.2) ∧
      ¬(min start.1 stop.1 = max start.1 stop.1) then
    none
  else
    some { x_start := min start.1 stop.1, y_start := min start.2 stop.2,
           x_end := max start.1 stop.1, y_end := max start.2 stop.2,
           damaged_cells := ∅ }

/-- `Ship.length`: the size of `self.cells` in the horizontal and the vertical
branch, `0` in the unreachable fall-through branch. -/
def Ship.length (s : Ship) : Int :=
  if s.is_horizontal then (s.cells.card : Int)
  else if s.is_vertical then (s.cells.card : Int)
  else 0

/-- `Ship.is_occupying_cell`: scan the x range when horizontal with matching
row, the y range when vertical with matching column.  The Python fall-through
returns the falsy `None`, embedded as `false`. -/
def Ship.is_occupying_cell (s : Ship) (cell : Cell) : Bool :=
  if s.is_horizontal ∧ s.y_start = cell.2 then
    decide (cell.1 ∈ Finset.Icc s.x_start s.x_end)
  else if s.is_vertical ∧ s.x_start = cell.1 then
    decide (cell.2 ∈ Finset.Icc s.y_start s.y_end)
  else false

/-- `Ship.receive_damage`: returns the Python return value paired with the
ship state after the call. -/
def Ship.receive_damage (s : Ship) (cell : Cell) : Bool × Ship :=
  if s.is_occupying_cell cell then
    (true, { s with damaged_cells := insert cell s.damaged_cells })
  else
    (false, s)

/-- `Ship.is_near_cell`: both the horizontal and the vertical branch scan
`self.cells` for a cell within one step on each axis; the fall-through
(neither orientation) returns the falsy `None`, embedded as `false`. -/
def Ship.is_near_cell (s : Ship) (cell : Cell) : Bool :=
  if s.is_horizontal then
    decide (∃ p ∈ s.cells,
      p.1 - 1 ≤ cell.1 ∧ cell.1 ≤ p.1 + 1 ∧ p.2 - 1 ≤ cell.2 ∧ cell.2 ≤ p.2 + 1)
  else if s.is_vertical then
    decide (∃ p ∈ s.cells,
      p.1 - 1 ≤ cell.1 ∧ cell.1 ≤ p.1 + 1 ∧ p.2 - 1 ≤ cell.2 ∧ cell.2 ≤ p.2 + 1)
  else false

/-- `Ship.is_near_ship`: some cell of the other ship is near this ship. -/
def Ship.is_near_ship (s other : Ship) : Bool :=
  decide (∃ c ∈ other.cells, s.is_near_cell c = true)

/-- What `Ship.__init__` guarantees about every constructed ship: it is
horizontal or vertical, and the endpoints are normalized. -/
def Ship.WF (s : Ship) : Prop :=
  (s.is_horizontal = true ∨ s.is_vertical = true) ∧
    s.x_start ≤ s.x_end ∧ s.y_start ≤ s.y_end

instance (s : Ship) : Decidable s.WF := by
  unfold Ship.WF; infer_instance

lemma mkShip_WF {a b : Cell} {s : Ship} (h : mkShip a b = some s) : s.WF := by
  unfold mkShip at h
  split at h
  · cases h
  · rename_i hcond
    rw [not_and_or, not_not, not_not] at hcond
    cases h
    refine ⟨?_, min_le_max, min_le_max⟩
    rcases hcond with h1 | h1
    · exact Or.inl (by simp [Ship.is_horizontal, h1])
    · exact Or.inr (by simp [Ship.is_vertical, h1])

lemma mem_cells_horizontal {s : Ship} (h : s.is_horizontal = true) {c : Cell} :
    c ∈ s.cells ↔ s.x_start ≤ c.1 ∧ c.1 ≤ s.x_end ∧ c.2 = s.y_start := by
  obtain ⟨cx, cy⟩ := c
  simp only [Ship.cells, h, if_true, Finset.mem_image, Finset.mem_Icc, Prod.mk.injEq]
  constructor
  · rintro ⟨x, ⟨hx1, hx2⟩, hx3, hy⟩
    exact ⟨hx3 ▸ hx1, hx3 ▸ hx2, hy.symm⟩
  · rintro ⟨h1, h2, h3⟩
    exact ⟨cx, ⟨h1, h2⟩, rfl, h3.symm⟩

lemma mem_cells_vertical {s : Ship} (h : s.is_horizontal = false)
    (hv : s.is_vertical = true) {c : Cell} :
    c ∈ s.cells ↔ c.1 = s.x_start ∧ s.y_start ≤ c.2 ∧ c.2 ≤ s.y_end := by
  obtain ⟨cx, cy⟩ := c
  simp only [Ship.cells, h, hv, if_true, Bool.false_eq_true, if_false, Finset.mem_image,
    Finset.mem_Icc, Prod.mk.injEq]
  constructor
  · rintro ⟨y, ⟨hy1, hy2⟩, hx, hy⟩
    exact ⟨hx.symm, hy ▸ hy1, hy ▸ hy2⟩
  · rintro ⟨h1, h2, h3⟩
    exact ⟨cy, ⟨h2, h3⟩, h1.symm, rfl⟩

/-- The membership scan of `is_occupying_cell` agrees with `self.cells`
(unconditionally in this embedding; the Python fall-through `None` is falsy). -/
lemma occupies_iff (s : Ship) (c : Cell) :
    s.is_occupying_cell c = true ↔ c ∈ s.cells := by
  unfold Ship.is_occupying_cell
  by_cases hh : s.is_horizontal = true
  · rw [mem_cells_horizontal hh]
    have hyy : s.y_start = s.y_end := by simpa [Ship.is_horizontal] using hh
    by_cases hy : s.y_start = c.2
    · rw [if_pos ⟨hh, hy⟩]
      simp only [Finset.mem_Icc, decide_eq_true_eq]
      omega
    · rw [if_neg (fun hc => hy hc.2)]
      by_cases hvx : s.is_vertical = true ∧ s.x_start = c.1
      · rw [if_pos hvx]
        simp only [Finset.mem_Icc, decide_eq_true_eq]
        omega
      · rw [if_neg hvx]
        simp only [Bool.false_eq_true, false_iff]
        omega
  · have hh' : s.is_horizontal = false := by simpa using hh
    rw [if_neg (fun hc => hh hc.1)]
    by_cases hv : s.is_vertical = true
    · rw [mem_cells_vertical hh' hv]
      have hxx : s.x_start = s.x_end := by simpa [Ship.is_vertical] using hv
      by_cases hx : s.x_start = c.1
      · rw [if_pos ⟨hv, hx⟩]
        simp only [Finset.mem_Icc, decide_eq_true_eq]
        omega
      · rw [if_neg (fun hc => hx hc.2)]
        simp only [Bool.false_eq_true, false_iff]
        omega
    · have hv' : s.is_vertical = false := by simpa using hv
      rw [if_neg (fun hc => hv hc.1)]
      simp [Ship.cells, hh', hv']

/-- The near-cell scan agrees with the Chebyshev-distance reading, for any
constructed (horizontal or vertical) ship. -/
lemma near_cell_iff {s : Ship} (hWF : s.WF) (c : Cell) :
    s.is_near_cell c = true ↔ ∃ p ∈ s.cells, chebDist p c ≤ 1 := by
  have hbody : ∀ p : Cell,
      (p.1 - 1 ≤ c.1 ∧ c.1 ≤ p.1 + 1 ∧ p.2 - 1 ≤ c.2 ∧ c.2 ≤ p.2 + 1) ↔
        chebDist p c ≤ 1 := by
    intro p
    unfold chebDist
    omega
  unfold Ship.is_near_cell
  rcases hWF.1 with hh | hv
  · simp only [hh, if_true, decide_eq_true_eq]
    exact ⟨fun ⟨p, hp, h⟩ => ⟨p, hp, (hbody p).mp h⟩,
           fun ⟨p, hp, h⟩ => ⟨p, hp, (hbody p).mpr h⟩⟩
  · by_cases hh : s.is_horizontal = true
    · simp only [hh, if_true, decide_eq_true_eq]
      exact ⟨fun ⟨p, hp, h⟩ => ⟨p, hp, (hbody p).mp h⟩,
             fun ⟨p, hp, h⟩ => ⟨p, hp, (hbody p).mpr h⟩⟩
    · have hh' : s.is_horizontal = false := by simpa using hh
      simp only [hh', Bool.false_eq_true, if_false, hv, if_true, decide_eq_true_eq]
      exact ⟨fun ⟨p, hp, h⟩ => ⟨p, hp, (hbody p).mp h⟩,
             fun ⟨p, hp, h⟩ => ⟨p, hp, (hbody p).mpr h⟩⟩

/-- The near-ship scan agrees with the pairwise Chebyshev reading. -/
lemma near_ship_iff {s : Ship} (hWF : s.WF) (t : Ship) :
    s.is_near_ship t = true ↔ ∃ q ∈ t.cells, ∃ p ∈ s.cells, chebDist p q ≤ 1 := by
  unfold Ship.is_near_ship
  simp only [decide_eq_true_eq]
  constructor
  · rintro ⟨q, hq, h⟩
    exact ⟨q, hq, (near_cell_iff hWF q).mp h⟩
  · rintro ⟨q, hq, h⟩
    exact ⟨q, hq, (near_cell_iff hWF q).mpr h⟩

lemma chebDist_comm (a b : Cell) : chebDist a b = chebDist b a := by
  unfold chebDist
  omega

/-- The in-bounds test used by `ShipFactory.generate_ships` on the end cell
(`width >= end[0] > 0 and height >= end[1] > 0`) and, with the same shape, by
`AutomaticPlayer.strategy_function` on each candidate target. -/
def in_board (w h : Int) (c : Cell) : Prop := c.1 ≤ w ∧ 0 < c.1 ∧ c.2 ≤ h ∧ 0 < c.2

instance (w h : Int) (c : Cell) : Decidable (in_board w h c) := by
  unfold in_board; infer_instance

/-- The `end_coordinate` computed by `generate_ships` from the random start
cell and orientation: extend `length - 1` cells to the east when horizontal,
to the north when vertical. -/
def end_coordinate (start : Cell) (L : Int) (is_horizontal : Bool) : Cell :=
  if is_horizontal then (start.1 + L - 1, start.2) else (start.1, start.2 + L - 1)

/-- One run of the inner `while` loop of `ShipFactory.generate_ships` that
places a single ship of the given length: each iteration consumes one random
draw (the start cell that `randrange` produced and the orientation that
`random.choice([0, 1])` produced), rejects the candidate when its end cell is
out of bounds (`continue`) or when the candidate is near an already-placed
ship, and otherwise returns the accepted ship with the unconsumed draws.  An
exhausted draw list models a run of randomness under which the loop has not
yet terminated. -/
def place_one (w h L : Int) (ships : List Ship) :
    List (Cell × Bool) → Option (Ship × List (Cell × Bool))
  | [] => none
  | (start, is_horizontal) :: rest =>
    if ¬ in_board w h (end_coordinate start L is_horizontal) then
      place_one w h L ships rest
    else
      match mkShip start (end_coordinate start L is_horizontal) with
      | none => none
      | some new_ship =>
        if ships.any (fun ship => ship.is_near_ship new_ship) then
          place_one w h L ships rest
        else
          some (new_ship, rest)

/-- The `for number in range(1, count + 1)` loop of `generate_ships`: place
`n` ships of length `L`, appending each accepted ship to the list. -/
def place_count (w h L : Int) :
    Nat → List Ship → List (Cell × Bool) → Option (List Ship × List (Cell × Bool))
  | 0, ships, draws => some (ships, draws)
  | n + 1, ships, draws =>
    match place_one w h L ships draws with
    | none => none
    | some (ship, rest) => place_count w h L n (ships ++ [ship]) rest

/-- The outer `for length in self.ships_per_length` loop of `generate_ships`.
The Python dict is embedded as an association list in insertion order; a
count value `c` yields `c.toNat` placements, as `range(1, c + 1)` does. -/
def generate_go (w h : Int) :
    List (Int × Int) → List Ship → List (Cell × Bool) → Option (List Ship)
  | [], ships, _ => some ships
  | (L, c) :: rest, ships, draws =>
    match place_count w h L c.toNat ships draws with
    | none => none
    | some (ships', draws') => generate_go w h rest ships' draws'

/-- `ShipFactory.generate_ships` for a factory with the given board size and
`ships_per_length` mapping, run against an explicit list of random draws. -/
def generate_ships (w h : Int) (mapping : List (Int × Int))
    (draws : List (Cell × Bool)) : Option (List Ship) :=
  generate_go w h mapping [] draws

/-- The default `ships_per_length` mapping `{1: 1, 2: 1, 3: 1, 4: 1, 5: 1}`. -/
def default_ships_per_length : List (Int × Int) := [(1, 1), (2, 1), (3, 1), (4, 1), (5, 1)]

/-- Embedding of the `AutomaticPlayer` attributes set in `__init__`, plus the
board dimensions the player reads from `self.board`. -/
structure AutomaticPlayer where
  implement_strategy : Bool
  attacked_positions : List (Option Cell)
  previous_coordinates : Option Cell
  cycle : Int
  save_ship_initial : Option Cell
  board_width : Int
  board_height : Int
deriving DecidableEq

/-- `AutomaticPlayer.__init__` with a board of the given dimensions. -/
def AutomaticPlayer.init (w h : Int) : AutomaticPlayer :=
  { implement_strategy := false, attacked_positions := [],
    previous_coordinates := none, cycle := 0, save_ship_initial := none,
    board_width := w, board_height := h }

/-- The cascading `if self.cycle == k` blocks of
`AutomaticPlayer.strategy_function`, acting on the unpacked
`previous_coordinates` `(x, y)` and the current `cycle`; returns the Python
return value (the implicit fall-through returns `None`) and the final value
of `self.cycle`.  Stage `k` is entered exactly when `cycle` holds `k` at that
point of the body, so the four blocks compile to four chained functions. -/
def probe_stage3 (w h x y : Int) : Option Cell × Int :=
  if in_board w h (x - 1, y) then (some (x - 1, y), 3) else (none, 0)

def probe_stage2 (w h x y : Int) : Option Cell × Int :=
  if in_board w h (x, y - 1) then (some (x, y - 1), 2) else probe_stage3 w h x y

def probe_stage1 (w h x y : Int) : Option Cell × Int :=
  if in_board w h (x + 1, y) then (some (x + 1, y), 1) else probe_stage2 w h x y

def probe_stage0 (w h x y : Int) : Option Cell × Int :=
  if in_board w h (x, y + 1) then (some (x, y + 1), 0) else probe_stage1 w h x y

def strategy_body (w h x y cycle : Int) : Option Cell × Int :=
  if cycle = 0 then probe_stage0 w h x y
  else if cycle = 1 then probe_stage1 w h x y
  else if cycle = 2 then probe_stage2 w h x y
  else if cycle = 3 then probe_stage3 w h x y
  else (none, cycle)

/-- `AutomaticPlayer.strategy_function`: unpack `previous_coordinates` (a
`None` there makes Python raise, embedded as the outer `none`) and run the
cascading probe blocks. -/
def AutomaticPlayer.strategy_function (p : AutomaticPlayer) :
    Option (Option Cell × AutomaticPlayer) :=
  match p.previous_coordinates with
  | none => none
  | some (x, y) =>
    some ((strategy_body p.board_width p.board_height x y p.cycle).1,
      { p with cycle := (strategy_body p.board_width p.board_height x y p.cycle).2 })

/-- The `while coordinates in self.attacked_positions` rejection loop of the
random branch of `select_target`, run against an explicit list of the cells
`get_random_coordinates` would return. -/
def pick_unattacked (attacked : List (Option Cell)) : List Cell → Option Cell
  | [] => none
  | c :: rest => if some c ∈ attacked then pick_unattacked attacked rest else some c

/-- `AutomaticPlayer.select_target`: the strategy branch when
`implement_strategy` is set, the random branch otherwise; either way the
returned coordinates are stored in `previous_coordinates` and appended to
`attacked_positions`.  Returns the Python return value paired with the player
state after the call. -/
def AutomaticPlayer.select_target (p : AutomaticPlayer) (randoms : List Cell) :
    Option (Option Cell × AutomaticPlayer) :=
  if p.implement_strategy then
    match p.strategy_function with
    | none => none
    | some (coordinates, p1) =>
      some (coordinates,
        { p1 with previous_coordinates := coordinates,
                  attacked_positions := p1.attacked_positions ++ [coordinates] })
  else
    match pick_unattacked p.attacked_positions randoms with
    | none => none
    | some c =>
      some (some c,
        { p with previous_coordinates := some c,
                 attacked_positions := p.attacked_positions ++ [some c] })

/-- `AutomaticPlayer.receive_result`.  The Python subscript operations
`self.previous_coordinates[0]` and `self.save_ship_initial[0]` raise when the
attribute holds `None`; those raises are embedded as `none`. -/
def AutomaticPlayer.receive_result (p : AutomaticPlayer)
    (is_ship_hit has_ship_sunk : Bool) : Option AutomaticPlayer :=
  if is_ship_hit ∧ ¬has_ship_sunk then
    if p.save_ship_initial = none then
      match p.previous_coordinates with
      | none => none
      | some c => some { p with implement_strategy := true, save_ship_initial := some c }
    else some { p with implement_strategy := true }
  else if has_ship_sunk then
    some { p with implement_strategy := false, cycle := 0, save_ship_initial := none }
  else if ¬is_ship_hit ∧ p.implement_strategy ∧ p.cycle < 4 then
    match p.save_ship_initial with
    | none => none
    | some c => some { p with cycle := p.cycle + 1, previous_coordinates := some c }
  else some p

/-- An externally observable interaction with an `AutomaticPlayer`: a call to
`select_target` (with the random cells its rejection loop would draw) or a
call to `receive_result` with the reported attack outcome. -/
inductive PEvent where
  | select (randoms : List Cell)
  | feedback (hit sunk : Bool)
deriving DecidableEq

def pstep (p : AutomaticPlayer) : PEvent → Option AutomaticPlayer
  | PEvent.select randoms => (p.select_target randoms).map (fun r => r.2)
  | PEvent.feedback hit sunk => p.receive_result hit sunk

/-- Run a sequence of interactions from a state; `none` when some call raised
or its modelled randomness was exhausted. -/
def prun (p : AutomaticPlayer) : List PEvent → Option AutomaticPlayer
  | [] => some p
  | e :: es =>
    match pstep p e with
    | none => none
    | some p' => prun p' es

/-- The direction vector table of the spec: North `(0,+1)`, East `(+1,0)`,
South `(0,-1)`, West `(-1,0)`, applied to a cell, indexed by the probe cycle
counter. -/
def probe_offset (a : Cell) (c : Int) : Cell :=
  if c = 0 then (a.1, a.2 + 1)
  else if c = 1 then (a.1 + 1, a.2)
  else if c = 2 then (a.1, a.2 - 1)
  else (a.1 - 1, a.2)

/-- The length-3 horizontal ship of the spec scenarios, `Ship((3,3),(5,3))`. -/
def demoShip33 : Ship := ⟨3, 3, 5, 3, ∅⟩

/-- The vertical ship `Ship((4,1),(4,5))` from the source sandbox. -/
def demoShipV : Ship := ⟨4, 1, 4, 5, ∅⟩

/-- Claim C4: ship construction fails with `InvalidShapeError` (a
`ValueError`) exactly when the endpoints are neither axis-aligned nor equal,
i.e. when they differ in both coordinates; a failing construction call
produces no `Ship` object (`mkShip` returns `none`). -/
theorem mkShip_invalid_iff (a b : Cell) :
    mkShip a b = none ↔ a.1 ≠ b.1 ∧ a.2 ≠ b.2 := by
  unfold mkShip
  split
  · rename_i hcond
    exact iff_of_true rfl (by omega)
  · rename_i hcond
    rw [not_and_or, not_not, not_not] at hcond
    exact iff_of_false (by simp) (by omega)

/-- Claim C5: for every constructed ship, `is_occupying_cell` returns `True`
on every occupied cell and `False` on every other cell. -/
theorem is_occupying_cell_spec (s : Ship) (hWF : s.WF) (c : Cell) :
    s.is_occupying_cell c = true ↔ c ∈ s.cells :=
  occupies_iff s c

/-- Witness for C5 on the ship `(3,3)-(5,3)`: occupied `(4,3)` is reported
occupied, unoccupied `(7,3)` is not. -/
theorem is_occupying_cell_spec_witness :
    demoShip33.is_occupying_cell (4, 3) = true ∧
    demoShip33.is_occupying_cell (7, 3) = false := by
  have h1 := is_occupying_cell_spec demoShip33 (by decide) (4, 3)
  have h2 := is_occupying_cell_spec demoShip33 (by decide) (7, 3)
  exact ⟨h1.mpr (by decide),
    Bool.eq_false_iff.mpr (fun hx => absurd (h2.mp hx) (by decide))⟩

/-- Claim C3: `receive_damage(c)` returns `True` exactly when the ship
occupies `c`; a `True` return records `c` in `damaged_cells`; re-damaging is
a no-op that repeats the first call's result and state; a `False` return
leaves the ship entirely unchanged. -/
theorem receive_damage_spec (s : Ship) (hWF : s.WF) (c : Cell) :
    ((s.receive_damage c).1 = true ↔ c ∈ s.cells) ∧
    ((s.receive_damage c).1 = true → c ∈ (s.receive_damage c).2.damaged_cells) ∧
    (((s.receive_damage c).2.receive_damage c).1 = (s.receive_damage c).1 ∧
      ((s.receive_damage c).2.receive_damage c).2 = (s.receive_damage c).2) ∧
    ((s.receive_damage c).1 = false → (s.receive_damage c).2 = s) := by
  have hupd : ∀ d : Finset Cell,
      ({ s with damaged_cells := d } : Ship).is_occupying_cell c = s.is_occupying_cell c :=
    fun _ => rfl
  by_cases h : s.is_occupying_cell c = true
  · have hmem : c ∈ s.cells := (occupies_iff s c).mp h
    refine ⟨?_, ?_, ⟨?_, ?_⟩, ?_⟩ <;>
      simp [Ship.receive_damage, h, hupd, hmem, Finset.insert_idem]
  · have hmem : c ∉ s.cells := fun hc => h ((occupies_iff s c).mpr hc)
    have h' : s.is_occupying_cell c = false := Bool.eq_false_iff.mpr h
    refine ⟨?_, ?_, ⟨?_, ?_⟩, ?_⟩ <;>
      simp [Ship.receive_damage, h', hmem]

/-- Witness for C3 on the ship `(3,3)-(5,3)`: damaging occupied `(4,3)`
returns `True` and records it, re-damaging it repeats the same state, and
attacking `(10,3)` returns `False` and changes nothing. -/
theorem receive_damage_spec_witness :
    (demoShip33.receive_damage (4, 3)).1 = true ∧
    (4, 3) ∈ (demoShip33.receive_damage (4, 3)).2.damaged_cells ∧
    ((demoShip33.receive_damage (4, 3)).2.receive_damage (4, 3)).2 =
      (demoShip33.receive_damage (4, 3)).2 ∧
    (demoShip33.receive_damage (10, 3)).2 = demoShip33 := by
  have h := receive_damage_spec demoShip33 (by decide) (4, 3)
  have h10 := receive_damage_spec demoShip33 (by decide) (10, 3)
  have htrue : (demoShip33.receive_damage (4, 3)).1 = true := h.1.mpr (by decide)
  exact ⟨htrue, h.2.1 htrue, h.2.2.1.2, h10.2.2.2 (by decide)⟩

/-- Claim C7: for every constructed ship, `is_near_cell(c)` is true exactly
when `c` is within Chebyshev distance 1 of some occupied cell of the ship. -/
theorem is_near_cell_spec (s : Ship) (hWF : s.WF) (c : Cell) :
    s.is_near_cell c = true ↔ ∃ p ∈ s.cells, chebDist p c ≤ 1 :=
  near_cell_iff hWF c

/-- Witness for C7, the spec scenario on `Ship((3,3),(5,3))`: `(5,3)`
(overlap), `(6,3)` (adjacent) and `(6,4)` (diagonal) are near, `(7,3)` is
not. -/
theorem is_near_cell_spec_witness :
    demoShip33.is_near_cell (5, 3) = true ∧
    demoShip33.is_near_cell (6, 3) = true ∧
    demoShip33.is_near_cell (6, 4) = true ∧
    demoShip33.is_near_cell (7, 3) = false := by
  have h7 := is_near_cell_spec demoShip33 (by decide) (7, 3)
  exact ⟨(is_near_cell_spec demoShip33 (by decide) (5, 3)).mpr (by decide),
    (is_near_cell_spec demoShip33 (by decide) (6, 3)).mpr (by decide),
    (is_near_cell_spec demoShip33 (by decide) (6, 4)).mpr (by decide),
    Bool.eq_false_iff.mpr (fun hx => absurd (h7.mp hx) (by decide))⟩

/-- Claim C9: ship adjacency is symmetric: for every pair of constructed
ships, `s.is_near_ship t` equals `t.is_near_ship s`. -/
theorem is_near_ship_symm (s t : Ship) (hs : s.WF) (ht : t.WF) :
    s.is_near_ship t = t.is_near_ship s := by
  rw [Bool.eq_iff_iff, near_ship_iff hs t, near_ship_iff ht s]
  constructor
  · rintro ⟨q, hq, p, hp, h⟩
    exact ⟨p, hp, q, hq, by rwa [chebDist_comm]⟩
  · rintro ⟨q, hq, p, hp, h⟩
    exact ⟨p, hp, q, hq, by rwa [chebDist_comm]⟩

/-- Witness for C9 on the ships `(3,3)-(5,3)` and `(4,1)-(4,5)`. -/
theorem is_near_ship_symm_witness :
    demoShip33.is_near_ship demoShipV = demoShipV.is_near_ship demoShip33 :=
  is_near_ship_symm demoShip33 demoShipV (by decide) (by decide)

lemma strategy_body_cycle_bound (w h x y c : Int) (hc : 0 ≤ c ∧ c ≤ 4) :
    0 ≤ (strategy_body w h x y c).2 ∧ (strategy_body w h x y c).2 ≤ 4 := by
  unfold strategy_body probe_stage0 probe_stage1 probe_stage2 probe_stage3
  repeat' split
  all_goals simp
  all_goals omega

lemma pstep_cycle_bound {p p' : AutomaticPlayer} {e : PEvent}
    (h : pstep p e = some p') (hp : 0 ≤ p.cycle ∧ p.cycle ≤ 4) :
    0 ≤ p'.cycle ∧ p'.cycle ≤ 4 := by
  cases e with
  | select randoms =>
    simp only [pstep] at h
    unfold AutomaticPlayer.select_target at h
    by_cases hs : p.implement_strategy = true
    · rw [if_pos hs] at h
      unfold AutomaticPlayer.strategy_function at h
      cases hprev : p.previous_coordinates with
      | none => rw [hprev] at h; simp at h
      | some a =>
        obtain ⟨x, y⟩ := a
        rw [hprev] at h
        simp only [Option.map_some'] at h
        cases h
        exact strategy_body_cycle_bound p.board_width p.board_height x y p.cycle hp
    · rw [if_neg hs] at h
      cases hpick : pick_unattacked p.attacked_positions randoms with
      | none => rw [hpick] at h; simp at h
      | some c =>
        rw [hpick] at h
        simp only [Option.map_some'] at h
        cases h
        exact hp
  | feedback hit sunk =>
    simp only [pstep] at h
    unfold AutomaticPlayer.receive_result at h
    split at h
    · split at h
      · cases hprev : p.previous_coordinates with
        | none => rw [hprev] at h; cases h
        | some c => rw [hprev] at h; cases h; exact hp
      · cases h; exact hp
    · split at h
      · cases h; constructor <;> simp
      · split at h
        · rename_i hcond
          cases hsave : p.save_ship_initial with
          | none => rw [hsave] at h; cases h
          | some c =>
            rw [hsave] at h
            cases h
            simp only []
            omega
        · cases h; exact hp

/-- Counterexample to C6 as stated: starting from a fresh player on a 10×10
board, one random attack at (5,5), a non-sinking hit, and four consecutive
misses drive `self.cycle` to 4, which is outside {0,1,2,3} (the guard
`self.cycle < 4` still fires at `cycle = 3`). -/
theorem cycle_reaches_four_cex :
    (prun (AutomaticPlayer.init 10 10)
        [PEvent.select [(5, 5)], PEvent.feedback true false, PEvent.feedback false false,
         PEvent.feedback false false, PEvent.feedback false false,
         PEvent.feedback false false]).map (fun p => p.cycle) = some 4 ∧
    ¬((4 : Int) = 0 ∨ (4 : Int) = 1 ∨ (4 : Int) = 2 ∨ (4 : Int) = 3) := by
  decide

/-- Claim C6 (amended): in every state of `AutomaticPlayer` reachable through
any sequence of `select_target` and `receive_result` calls, the probe cycle
counter `self.cycle` lies in {0,1,2,3,4}: the miss branch of `receive_result`
increments it while it is below 4, so it reaches 4 after four consecutive
misses of a hunt. -/
theorem cycle_bounded (w h : Int) (events : List PEvent) (p : AutomaticPlayer)
    (hrun : prun (AutomaticPlayer.init w h) events = some p) :
    0 ≤ p.cycle ∧ p.cycle ≤ 4 := by
  have main : ∀ (evs : List PEvent) (q r : AutomaticPlayer),
      prun q evs = some r → 0 ≤ q.cycle ∧ q.cycle ≤ 4 → 0 ≤ r.cycle ∧ r.cycle ≤ 4 := by
    intro evs
    induction evs with
    | nil =>
      intro q r hq hb
      unfold prun at hq
      cases hq
      exact hb
    | cons e es ih =>
      intro q r hq hb
      unfold prun at hq
      cases hstep : pstep q e with
      | none => rw [hstep] at hq; cases hq
      | some q' =>
        rw [hstep] at hq
        exact ih q' r hq (pstep_cycle_bound hstep hb)
  exact main events _ p hrun (by norm_num [AutomaticPlayer.init])

/-- The state reached by the counterexample trace of C6, used to witness the
amended invariant at a concrete input. -/
def c6Events : List PEvent :=
  [PEvent.select [(5, 5)], PEvent.feedback true false, PEvent.feedback false false,
   PEvent.feedback false false, PEvent.feedback false false, PEvent.feedback false false]

def c6FinalState : AutomaticPlayer :=
  { implement_strategy := true, attacked_positions := [some (5, 5)],
    previous_coordinates := some (5, 5), cycle := 4, save_ship_initial := some (5, 5),
    board_width := 10, board_height := 10 }

theorem cycle_bounded_witness : 0 ≤ c6FinalState.cycle ∧ c6FinalState.cycle ≤ 4 :=
  cycle_bounded 10 10 c6Events c6FinalState (by decide)

/-- The sequence of probe targets returned while hunting, read off a run. -/
def nextProbe (o : Option AutomaticPlayer) : Option (Option Cell) :=
  o.bind (fun p => (p.select_target []).map (fun r => r.1))

/-- Random attack at (5,5), then a non-sinking hit: the player enters hunting
mode with anchor (5,5). -/
def huntEvents0 : List PEvent := [PEvent.select [(5, 5)], PEvent.feedback true false]

def huntEvents1 : List PEvent := huntEvents0 ++ [PEvent.select [], PEvent.feedback false false]

def huntEvents2 : List PEvent := huntEvents1 ++ [PEvent.select [], PEvent.feedback false false]

def huntEvents3 : List PEvent := huntEvents2 ++ [PEvent.select [], PEvent.feedback false false]

/-- Counterexample to C2 as stated: after the anchor hit at (5,5), the first
probe (5,6) scores an intermediate non-sinking hit; the anchor is still
(5,5) and the probe direction still North (`cycle = 0`), so the claim
predicts the next target `anchor + North = (5,6)`, but the code probes from
the last hit cell and returns (5,7). -/
theorem hunting_probe_from_anchor_cex :
    nextProbe (prun (AutomaticPlayer.init 10 10)
        (huntEvents0 ++ [PEvent.select [], PEvent.feedback true false])) =
      some (some (5, 7)) ∧
    (prun (AutomaticPlayer.init 10 10)
        (huntEvents0 ++ [PEvent.select [], PEvent.feedback true false])).map
      (fun p => (p.save_ship_initial, p.cycle)) = some (some (5, 5), 0) ∧
    ¬(((5, 7) : Cell) = probe_offset (5, 5) 0) := by
  decide

/-- Claim C2 (amended): while hunting, the target returned by
`select_target` is `previous_coordinates` offset by the direction vector of
the current probe cycle, cycling North (0,+1), East (+1,0), South (0,-1),
West (-1,0); `receive_result` resets `previous_coordinates` to the anchor
after each miss (but leaves it at the hit cell after an intermediate
non-sinking hit).  Hence in the miss-only hunt with anchor (5,5) and
in-bounds probes the successive targets are exactly (5,6), (6,5), (5,4),
(4,5), each derived from the anchor and not from the prior miss location. -/
theorem hunting_probe_from_previous :
    (∀ (p : AutomaticPlayer) (randoms : List Cell) (a : Cell),
      p.implement_strategy = true →
      p.previous_coordinates = some a →
      0 ≤ p.cycle → p.cycle ≤ 3 →
      in_board p.board_width p.board_height (probe_offset a p.cycle) →
      (p.select_target randoms).map (fun r => r.1) =
        some (some (probe_offset a p.cycle))) ∧
    nextProbe (prun (AutomaticPlayer.init 10 10) huntEvents0) = some (some (5, 6)) ∧
    nextProbe (prun (AutomaticPlayer.init 10 10) huntEvents1) = some (some (6, 5)) ∧
    nextProbe (prun (AutomaticPlayer.init 10 10) huntEvents2) = some (some (5, 4)) ∧
    nextProbe (prun (AutomaticPlayer.init 10 10) huntEvents3) = some (some (4, 5)) := by
  refine ⟨?_, by decide, by decide, by decide, by decide⟩
  intro p randoms a hs hprev h0 h3 hin
  unfold AutomaticPlayer.select_target AutomaticPlayer.strategy_function
  rw [if_pos hs, hprev]
  obtain ⟨x, y⟩ := a
  simp only [Option.map_some']
  have hc : p.cycle = 0 ∨ p.cycle = 1 ∨ p.cycle = 2 ∨ p.cycle = 3 := by omega
  rcases hc with hc | hc | hc | hc <;> rw [hc] at hin ⊢
  · norm_num [probe_offset] at hin
    simp [strategy_body, probe_stage0, probe_offset, hin]
  · norm_num [probe_offset] at hin
    simp [strategy_body, probe_stage1, probe_offset, hin]
  · norm_num [probe_offset] at hin
    simp [strategy_body, probe_stage2, probe_offset, hin]
  · norm_num [probe_offset] at hin
    simp [strategy_body, probe_stage3, probe_offset, hin]

/-- A hunting state with anchor (5,5) on a 10×10 board, cycle North. -/
def demoHuntState : AutomaticPlayer :=
  { implement_strategy := true, attacked_positions := [some (5, 5)],
    previous_coordinates := some (5, 5), cycle := 0, save_ship_initial := some (5, 5),
    board_width := 10, board_height := 10 }

theorem hunting_probe_from_previous_witness :
    (demoHuntState.select_target []).map (fun r => r.1) = some (some (5, 6)) := by
  have h := hunting_probe_from_previous.1 demoHuntState [] (5, 5) rfl rfl
    (by decide) (by decide) (by decide)
  simpa [probe_offset, demoHuntState] using h

/-- Random attack at (5,6) (a miss), then a random hit at (5,5): the hunt
begins with (5,6) already recorded in `attacked_positions`. -/
def c10Events : List PEvent :=
  [PEvent.select [(5, 6)], PEvent.feedback false false, PEvent.select [(5, 5)],
   PEvent.feedback true false]

/-- Claim C10: the exclusion of previously attacked cells applies only to the
random branch of `select_target`: in hunting mode the strategy target is not
checked against `attacked_positions`, so after a random attack at (5,6), a
miss, a random hit at (5,5) and entering the hunt, `select_target` returns
(5,6) although (5,6) is already in `attacked_positions`. -/
theorem strategy_ignores_attacked_positions :
    nextProbe (prun (AutomaticPlayer.init 10 10) c10Events) = some (some (5, 6)) ∧
    (prun (AutomaticPlayer.init 10 10) c10Events).map
      (fun p => decide (some ((5, 6) : Cell) ∈ p.attacked_positions)) = some true := by
  decide

/-- Every occupied cell of the ship lies on the board. -/
def cells_in_board (w h : Int) (s : Ship) : Prop := ∀ p ∈ s.cells, in_board w h p

/-- The separation property of the claim: every cell of one ship is at
Chebyshev distance greater than 1 from every cell of the other, so the ships
neither overlap nor touch, diagonals included. -/
def Apart (s t : Ship) : Prop := ∀ p ∈ s.cells, ∀ q ∈ t.cells, 1 < chebDist p q

lemma mkShip_fields {a b : Cell} {s : Ship} (h : mkShip a b = some s) :
    s.x_start = min a.1 b.1 ∧ s.x_end = max a.1 b.1 ∧
      s.y_start = min a.2 b.2 ∧ s.y_end = max a.2 b.2 ∧ s.damaged_cells = ∅ := by
  unfold mkShip at h
  split at h
  · cases h
  · cases h
    exact ⟨rfl, rfl, rfl, rfl, rfl⟩

lemma cells_bounds {s : Ship} (hWF : s.WF) {p : Cell} (hp : p ∈ s.cells) :
    s.x_start ≤ p.1 ∧ p.1 ≤ s.x_end ∧ s.y_start ≤ p.2 ∧ p.2 ≤ s.y_end := by
  by_cases hh : s.is_horizontal = true
  · have hmem := (mem_cells_horizontal hh).mp hp
    have hyy : s.y_start = s.y_end := by simpa [Ship.is_horizontal] using hh
    omega
  · rcases hWF.1 with hh' | hv
    · exact absurd hh' hh
    · have hmem := (mem_cells_vertical (by simpa using hh) hv).mp hp
      have hxx : s.x_start = s.x_end := by simpa [Ship.is_vertical] using hv
      omega

lemma mkShip_cells_in_board {w h : Int} {a b : Cell} {s : Ship}
    (hm : mkShip a b = some s) (ha : in_board w h a) (hb : in_board w h b) :
    cells_in_board w h s := by
  intro p hp
  have hf := mkShip_fields hm
  have hbd := cells_bounds (mkShip_WF hm) hp
  unfold in_board at ha hb ⊢
  omega

lemma mkShip_horiz (sx sy L : Int) (hL : 1 ≤ L) :
    mkShip (sx, sy) (sx + L - 1, sy) = some ⟨sx, sy, sx + L - 1, sy, ∅⟩ := by
  unfold mkShip
  rw [if_neg (by simp)]
  dsimp only
  simp only [Option.some.injEq, Ship.mk.injEq]
  refine ⟨by omega, by omega, by omega, by omega, trivial⟩

lemma mkShip_vert (sx sy L : Int) (hL : 1 ≤ L) :
    mkShip (sx, sy) (sx, sy + L - 1) = some ⟨sx, sy, sx, sy + L - 1, ∅⟩ := by
  unfold mkShip
  rw [if_neg (by simp)]
  dsimp only
  simp only [Option.some.injEq, Ship.mk.injEq]
  refine ⟨by omega, by omega, by omega, by omega, trivial⟩

lemma length_horiz (sx sy L : Int) (hL : 1 ≤ L) :
    (⟨sx, sy, sx + L - 1, sy, ∅⟩ : Ship).length = L := by
  have hh : (⟨sx, sy, sx + L - 1, sy, ∅⟩ : Ship).is_horizontal = true := by
    simp [Ship.is_horizontal]
  have hinj : Function.Injective (fun x : Int => ((x, sy) : Cell)) := by
    intro a b hab
    simpa using hab
  unfold Ship.length
  rw [if_pos hh]
  unfold Ship.cells
  rw [if_pos hh, Finset.card_image_of_injective _ hinj, Int.card_Icc]
  dsimp only
  omega

lemma length_vert (sx sy L : Int) (hL : 1 ≤ L) :
    (⟨sx, sy, sx, sy + L - 1, ∅⟩ : Ship).length = L := by
  by_cases hh : (⟨sx, sy, sx, sy + L - 1, ∅⟩ : Ship).is_horizontal = true
  · have hL1 : sy = sy + L - 1 := by simpa [Ship.is_horizontal] using hh
    have hinj : Function.Injective (fun x : Int => ((x, sy) : Cell)) := by
      intro a b hab
      simpa using hab
    unfold Ship.length
    rw [if_pos hh]
    unfold Ship.cells
    rw [if_pos hh, Finset.card_image_of_injective _ hinj, Int.card_Icc]
    dsimp only
    omega
  · have hv : (⟨sx, sy, sx, sy + L - 1, ∅⟩ : Ship).is_vertical = true := by
      simp [Ship.is_vertical]
    have hinj : Function.Injective (fun y : Int => ((sx, y) : Cell)) := by
      intro a b hab
      simpa using hab
    unfold Ship.length
    rw [if_neg hh, if_pos hv]
    unfold Ship.cells
    rw [if_neg hh, if_pos hv, Finset.card_image_of_injective _ hinj, Int.card_Icc]
    dsimp only
    omega

lemma not_near_apart {t s : Ship} (hWF : t.WF) (h : t.is_near_ship s = false) :
    Apart t s := by
  intro p hp q hq
  by_contra hlt
  push_neg at hlt
  have htrue : t.is_near_ship s = true := (near_ship_iff hWF s).mpr ⟨q, hq, p, hp, hlt⟩
  rw [h] at htrue
  cases htrue

lemma place_one_spec (w h L : Int) (hL : 1 ≤ L) (ships : List Ship)
    (hWFs : ∀ t ∈ ships, t.WF) :
    ∀ (draws : List (Cell × Bool)) (s : Ship) (rest : List (Cell × Bool)),
      (∀ d ∈ draws, in_board w h d.1) →
      place_one w h L ships draws = some (s, rest) →
      s.WF ∧ s.length = L ∧ cells_in_board w h s ∧
        (∀ t ∈ ships, Apart t s) ∧ (∀ d ∈ rest, in_board w h d.1) := by
  intro draws
  induction draws with
  | nil =>
    intro s rest _ hpl
    cases hpl
  | cons d rest0 ih =>
    intro s rest hin hpl
    obtain ⟨start, isH⟩ := d
    have hstart : in_board w h start := hin (start, isH) (List.mem_cons_self _ _)
    have hin0 : ∀ d ∈ rest0, in_board w h d.1 :=
      fun d hd => hin d (List.mem_cons_of_mem _ hd)
    unfold place_one at hpl
    split at hpl
    · exact ih s rest hin0 hpl
    · rename_i hb
      rw [not_not] at hb
      cases hm : mkShip start (end_coordinate start L isH) with
      | none =>
        rw [hm] at hpl
        cases hpl
      | some ns =>
        rw [hm] at hpl
        dsimp only at hpl
        split at hpl
        · exact ih s rest hin0 hpl
        · rename_i hnear
          cases hpl
          have hall : ∀ t ∈ ships, t.is_near_ship s = false := by
            intro t ht
            cases hx : t.is_near_ship s with
            | false => rfl
            | true => exact absurd (List.any_eq_true.mpr ⟨t, ht, hx⟩) hnear
          refine ⟨mkShip_WF hm, ?_, mkShip_cells_in_board hm hstart hb,
            fun t ht => not_near_apart (hWFs t ht) (hall t ht), hin0⟩
          obtain ⟨sx, sy⟩ := start
          cases isH with
          | true =>
            rw [show end_coordinate (sx, sy) L true = (sx + L - 1, sy) from rfl,
              mkShip_horiz sx sy L hL] at hm
            cases hm
            exact length_horiz sx sy L hL
          | false =>
            rw [show end_coordinate (sx, sy) L false = (sx, sy + L - 1) from rfl,
              mkShip_vert sx sy L hL] at hm
            cases hm
            exact length_vert sx sy L hL

lemma place_count_spec (w h L : Int) (hL : 1 ≤ L) :
    ∀ (n : Nat) (ships : List Ship) (draws : List (Cell × Bool))
      (ships' : List Ship) (rest : List (Cell × Bool)),
      place_count w h L n ships draws = some (ships', rest) →
      (∀ t ∈ ships, t.WF ∧ cells_in_board w h t) →
      List.Pairwise Apart ships →
      (∀ d ∈ draws, in_board w h d.1) →
      ∃ new, ships' = ships ++ new ∧
        new.map Ship.length = List.replicate n L ∧
        (∀ t ∈ ships', t.WF ∧ cells_in_board w h t) ∧
        List.Pairwise Apart ships' ∧
        (∀ d ∈ rest, in_board w h d.1) := by
  intro n
  induction n with
  | zero =>
    intro ships draws ships' rest hpc hgood hpw hdr
    unfold place_count at hpc
    cases hpc
    exact ⟨[], by simp, rfl, hgood, hpw, hdr⟩
  | succ n ih =>
    intro ships draws ships' rest hpc hgood hpw hdr
    unfold place_count at hpc
    cases hp1 : place_one w h L ships draws with
    | none =>
      rw [hp1] at hpc
      cases hpc
    | some pr =>
      obtain ⟨s0, rest0⟩ := pr
      rw [hp1] at hpc
      obtain ⟨hWF0, hlen0, hib0, hap0, hrest0⟩ :=
        place_one_spec w h L hL ships (fun t ht => (hgood t ht).1) draws s0 rest0 hdr hp1
      have hgood1 : ∀ t ∈ ships ++ [s0], t.WF ∧ cells_in_board w h t := by
        intro t ht
        rcases List.mem_append.mp ht with ht | ht
        · exact hgood t ht
        · rcases List.mem_singleton.mp ht with rfl
          exact ⟨hWF0, hib0⟩
      have hpw1 : List.Pairwise Apart (ships ++ [s0]) := by
        rw [List.pairwise_append]
        refine ⟨hpw, List.pairwise_singleton _ _, fun a ha b hb => ?_⟩
        rcases List.mem_singleton.mp hb with rfl
        exact hap0 a ha
      obtain ⟨new, hships', hmap, hgood', hpw', hrest'⟩ :=
        ih (ships ++ [s0]) rest0 ships' rest hpc hgood1 hpw1 hrest0
      refine ⟨s0 :: new, ?_, ?_, hgood', hpw', hrest'⟩
      · rw [hships']
        simp
      · simp [hmap, hlen0, List.replicate_succ]

/-- The multiset of requested lengths laid out in generation order: for each
mapping entry, `count.toNat` copies of its length. -/
def lengths_list : List (Int × Int) → List Int
  | [] => []
  | (L, c) :: rest => List.replicate c.toNat L ++ lengths_list rest

lemma generate_go_spec (w h : Int) :
    ∀ (mapping : List (Int × Int)) (ships : List Ship) (draws : List (Cell × Bool))
      (ships' : List Ship),
      generate_go w h mapping ships draws = some ships' →
      (∀ e ∈ mapping, 1 ≤ e.1) →
      (∀ d ∈ draws, in_board w h d.1) →
      (∀ t ∈ ships, t.WF ∧ cells_in_board w h t) →
      List.Pairwise Apart ships →
      ∃ new, ships' = ships ++ new ∧
        new.map Ship.length = lengths_list mapping ∧
        (∀ t ∈ ships', t.WF ∧ cells_in_board w h t) ∧
        List.Pairwise Apart ships' := by
  intro mapping
  induction mapping with
  | nil =>
    intro ships draws ships' hgen hmap hdr hgood hpw
    unfold generate_go at hgen
    cases hgen
    exact ⟨[], by simp, rfl, hgood, hpw⟩
  | cons e rest ih =>
    intro ships draws ships' hgen hmap hdr hgood hpw
    obtain ⟨L, c⟩ := e
    unfold generate_go at hgen
    cases hpc : place_count w h L c.toNat ships draws with
    | none =>
      rw [hpc] at hgen
      cases hgen
    | some pr =>
      obtain ⟨ships1, draws1⟩ := pr
      rw [hpc] at hgen
      have hL : 1 ≤ L := hmap (L, c) (List.mem_cons_self _ _)
      obtain ⟨new1, hs1, hm1, hgood1, hpw1, hdr1⟩ :=
        place_count_spec w h L hL c.toNat ships draws ships1 draws1 hpc hgood hpw hdr
      obtain ⟨new2, hs2, hm2, hgood2, hpw2⟩ :=
        ih ships1 draws1 ships' hgen (fun e he => hmap e (List.mem_cons_of_mem _ he))
          hdr1 hgood1 hpw1
      refine ⟨new1 ++ new2, ?_, ?_, hgood2, hpw2⟩
      · rw [hs2, hs1, List.append_assoc]
      · simp [lengths_list, hm1, hm2]

lemma countP_replicate_eq (n : Nat) (L : Int) :
    (List.replicate n L).countP (fun x => decide (x = L)) = n := by
  induction n with
  | zero => rfl
  | succ n ih => simp [List.replicate_succ, List.countP_cons, ih]

lemma countP_replicate_ne (n : Nat) (L' L : Int) (hne : L' ≠ L) :
    (List.replicate n L').countP (fun x => decide (x = L)) = 0 := by
  induction n with
  | zero => rfl
  | succ n ih => simp [List.replicate_succ, List.countP_cons, ih, hne]

lemma countP_lengths_list_zero (L : Int) :
    ∀ mapping : List (Int × Int), L ∉ mapping.map Prod.fst →
      (lengths_list mapping).countP (fun x => decide (x = L)) = 0 := by
  intro mapping
  induction mapping with
  | nil =>
    intro _
    rfl
  | cons e rest ih =>
    intro hnm
    obtain ⟨L', c'⟩ := e
    have hL' : L' ≠ L := by
      intro hmm
      exact hnm (by simp [hmm])
    unfold lengths_list
    rw [List.countP_append, ih (fun hmem => hnm (by simp [hmem])),
      countP_replicate_ne c'.toNat L' L hL']

lemma countP_lengths_list (L c : Int) :
    ∀ mapping : List (Int × Int), (mapping.map Prod.fst).Nodup →
      (L, c) ∈ mapping →
      (lengths_list mapping).countP (fun x => decide (x = L)) = c.toNat := by
  intro mapping
  induction mapping with
  | nil =>
    intro _ hmem
    cases hmem
  | cons e rest ih =>
    intro hnd hmem
    obtain ⟨L', c'⟩ := e
    rw [List.map_cons, List.nodup_cons] at hnd
    unfold lengths_list
    rw [List.countP_append]
    rcases List.mem_cons.mp hmem with heq | hmem'
    · cases heq
      rw [countP_replicate_eq c.toNat L,
        countP_lengths_list_zero L rest hnd.1]
      omega
    · have hL' : L' ≠ L := by
        intro hcontra
        subst hcontra
        exact hnd.1 (List.mem_map.mpr ⟨(L', c), hmem', rfl⟩)
      rw [countP_replicate_ne c'.toNat L' L hL', ih hnd.2 hmem']
      omega

lemma filter_length_eq_countP (ships : List Ship) (L : Int) :
    (ships.filter (fun s => decide (s.length = L))).length =
      (ships.map Ship.length).countP (fun x => decide (x = L)) := by
  induction ships with
  | nil => rfl
  | cons s rest ih =>
    by_cases hp : s.length = L
    · simp [List.filter_cons, List.countP_cons, hp, ih]
    · simp [List.filter_cons, List.countP_cons, hp, ih]

/-- The single ship returned by the C1 counterexample run: requesting one
ship of "length" 0 yields the two-cell ship `(1,1)-(2,1)`. -/
def c1CexShip : Ship := ⟨1, 1, 2, 1, ∅⟩

/-- Counterexample to C1 as stated: the claim quantifies over every
`ships_per_length` mapping, including `{0: 1}`.  On a 10×10 board, with the
random draws start = (2,1) and horizontal orientation, the end coordinate is
`(2 + 0 - 1, 1) = (1,1)`, in bounds, and the normalized ship `(1,1)-(2,1)`
has two cells; `generate_ships` returns it, so the result does not contain
exactly one ship whose `length()` is 0. -/
theorem generate_ships_length_zero_cex :
    generate_ships 10 10 [(0, 1)] [((2, 1), true)] = some [c1CexShip] ∧
    c1CexShip.length = 2 ∧
    (([c1CexShip].filter (fun s => decide (s.length = 0))).length : Int) ≠ 1 := by
  decide

/-- Claim C1 (amended): for every board size and every `ships_per_length`
mapping whose keys are distinct (as in a Python dict), whose lengths are all
at least 1 and whose counts are all nonnegative, whenever `generate_ships`
returns a fleet (under random draws that `randrange` can produce, i.e. start
cells on the board), the fleet contains, for each `(length, count)` entry,
exactly `count` ships whose `length()` equals that length; every occupied
cell of every returned ship lies within `[1,w]×[1,h]`; and every two distinct
returned ships are pairwise separated by Chebyshev distance greater than 1
(no overlap and no adjacency, diagonals included). -/
theorem generate_ships_fleet_spec (w h : Int) (mapping : List (Int × Int))
    (draws : List (Cell × Bool)) (ships : List Ship)
    (hkeys : (mapping.map Prod.fst).Nodup)
    (hentries : ∀ e ∈ mapping, 1 ≤ e.1 ∧ 0 ≤ e.2)
    (hdraws : ∀ d ∈ draws, in_board w h d.1)
    (hgen : generate_ships w h mapping draws = some ships) :
    (∀ e ∈ mapping,
      ((ships.filter (fun s => decide (s.length = e.1))).length : Int) = e.2) ∧
    (∀ s ∈ ships, ∀ p ∈ s.cells, in_board w h p) ∧
    List.Pairwise Apart ships := by
  obtain ⟨new, hships, hmapLen, hgood, hpw⟩ :=
    generate_go_spec w h mapping [] draws ships hgen (fun e he => (hentries e he).1)
      hdraws (fun t ht => absurd ht (List.not_mem_nil t)) List.Pairwise.nil
  rw [List.nil_append] at hships
  subst hships
  refine ⟨?_, fun s hs => (hgood s hs).2, hpw⟩
  intro e he
  obtain ⟨L, c⟩ := e
  have h0 : (0 : Int) ≤ c := (hentries (L, c) he).2
  rw [filter_length_eq_countP, hmapLen, countP_lengths_list L c mapping hkeys he]
  omega

/-- The random draws of the C1 witness run: five horizontal ships starting
in column 1 on rows 1, 3, 5, 7, 9. -/
def demo_draws : List (Cell × Bool) :=
  [((1, 1), true), ((1, 3), true), ((1, 5), true), ((1, 7), true), ((1, 9), true)]

/-- The fleet those draws produce under the default mapping. -/
def demo_fleet : List Ship :=
  [⟨1, 1, 1, 1, ∅⟩, ⟨1, 3, 2, 3, ∅⟩, ⟨1, 5, 3, 5, ∅⟩, ⟨1, 7, 4, 7, ∅⟩, ⟨1, 9, 5, 9, ∅⟩]

theorem generate_ships_fleet_spec_witness :
    ((demo_fleet.filter (fun s => decide (s.length = 3))).length : Int) = 1 := by
  have hspec := generate_ships_fleet_spec 10 10 default_ships_per_length demo_draws
    demo_fleet (by decide) (by decide) (by decide) (by decide)
  exact hspec.1 (3, 1) (by decide)

lemma in_board_one {c : Cell} (h : in_board 1 1 c) : c = (1, 1) := by
  obtain ⟨x, y⟩ := c
  simp only [in_board] at h
  simp only [Prod.mk.injEq]
  omega

lemma place_one_stuck : ∀ (rest : List (Cell × Bool)),
    (∀ d ∈ rest, in_board 1 1 d.1) →
    place_one 1 1 1 [(⟨1, 1, 1, 1, ∅⟩ : Ship)] rest = none
  | [], _ => rfl
  | (start, isH) :: rest0, hr => by
    have h1 : start = (1, 1) := in_board_one (hr (start, isH) (List.mem_cons_self _ _))
    subst h1
    have hstep : place_one 1 1 1 [(⟨1, 1, 1, 1, ∅⟩ : Ship)] (((1, 1), isH) :: rest0) =
        place_one 1 1 1 [(⟨1, 1, 1, 1, ∅⟩ : Ship)] rest0 := by
      cases isH <;> rfl
    rw [hstep]
    exact place_one_stuck rest0 (fun d hd => hr d (List.mem_cons_of_mem _ hd))

lemma place_count_two_stuck : ∀ (draws : List (Cell × Bool)),
    (∀ d ∈ draws, in_board 1 1 d.1) →
    place_count 1 1 1 2 [] draws = none
  | [], _ => rfl
  | (start, isH) :: rest0, hr => by
    have h1 : start = (1, 1) := in_board_one (hr (start, isH) (List.mem_cons_self _ _))
    subst h1
    have hstep : place_one 1 1 1 [] (((1, 1), isH) :: rest0) =
        some (⟨1, 1, 1, 1, ∅⟩, rest0) := by
      cases isH <;> rfl
    unfold place_count
    rw [hstep]
    dsimp only
    unfold place_count
    rw [List.nil_append,
      place_one_stuck rest0 (fun d hd => hr d (List.mem_cons_of_mem _ hd))]

/-- Claim C8: `generate_ships` is a rejection-sampling loop with no iteration
bound, caching or backtracking; for the dense configuration of two ships of
length 1 on a 1×1 board, every run of random draws (each start cell being one
`randrange` can produce on that board, i.e. (1,1)) leaves the placement loop
still running: no finite amount of randomness makes it return, which is the
fuel-indexed reading of an infinite random sequence on which the loop never
terminates. -/
theorem generate_ships_unbounded (draws : List (Cell × Bool))
    (hdraws : ∀ d ∈ draws, in_board 1 1 d.1) :
    generate_ships 1 1 [(1, 2)] draws = none := by
  unfold generate_ships generate_go
  rw [show ((2 : Int)).toNat = 2 from rfl, place_count_two_stuck draws hdraws]

theorem generate_ships_unbounded_witness :
    generate_ships 1 1 [(1, 2)] [((1, 1), true), ((1, 1), false), ((1, 1), true)] = none :=
  generate_ships_unbounded [((1, 1), true), ((1, 1), false), ((1, 1), true)] (by decide)
